import Mathlib

/-!
Verification of the workflow transition engine of pvworkflowmanager.

The TypeScript sources embedded here:
- src/utils/transitionRules.ts: getValidNextTransitions, canUserTransition
- src/utils/workflowValidation.ts: canUserExecuteTransition, hasCycle,
  hasDuplicateEdge, hasStartAndEndNodes, validateTransitionAgainstWorkflow
- src/data/dataAccess.ts: taskOperations.markCompleted / markIncomplete /
  getIncompleteByTransitionId, workflowOperations.create / update

Strings stay strings, JavaScript Date values are modelled as opaque Nat
timestamps supplied by the caller, and the localStorage-backed stores are
modelled as explicit lists threaded through the operations.
-/

namespace PV

/-- Transition record (src/types/index.ts).  The embedded `tasks` list and the
reserved `conditions` field are never read by any engine function, so they are
not carried here. -/
structure Transition where
  id : String
  fromStatusId : String
  toStatusId : String
  requiresApproval : Bool
  approverRoles : List String
  approverUserIds : List String
deriving DecidableEq, Repr

/-- Status record (src/types/index.ts). -/
structure Status where
  id : String
  name : String
  color : String
  description : String
  entityTypes : List String
deriving DecidableEq, Repr

/-- User record (src/types/index.ts).  The role is a plain string; the
TypeScript union is a subtype of string and canUserTransition accepts any
string role. -/
structure User where
  id : String
  name : String
  email : String
  role : String
deriving DecidableEq, Repr

/-- Task record (src/types/index.ts); Date fields become Nat timestamps. -/
structure Task where
  id : String
  name : String
  description : String
  assignedUserId : String
  deadline : Option Nat
  isRequired : Bool
  isCompleted : Bool
  completedAt : Option Nat
  completedBy : Option String
  transitionId : String
  createdAt : Nat
  updatedAt : Nat
deriving DecidableEq, Repr

/-- Workflow record (src/types/index.ts); the optional canvas layout is UI
state never read by the engine and is dropped. -/
structure Workflow where
  id : String
  name : String
  description : String
  entityType : String
  statuses : List String
  transitions : List Transition
  isDefault : Bool
  createdAt : Nat
  updatedAt : Nat
deriving DecidableEq, Repr

/-- Result shape of both permission evaluators: { allowed, reason? }. -/
structure PermissionCheckResult where
  allowed : Bool
  reason : Option String
deriving DecidableEq, Repr

/-- canUserTransition from src/utils/transitionRules.ts: the four-rule
decision combining the task gate, the admin bypass and the approval check. -/
def canUserTransition (user : User) (transition : Transition)
    (blockedByTasks : Bool) : PermissionCheckResult :=
  if blockedByTasks then
    { allowed := false, reason := some "Required tasks are incomplete for this transition." }
  else if user.role == "admin" then
    { allowed := true, reason := none }
  else if !transition.requiresApproval then
    { allowed := true, reason := none }
  else
    let roleAllowed := transition.approverRoles.contains user.role
    let userAllowed := transition.approverUserIds.contains user.id
    if roleAllowed || userAllowed then
      { allowed := true, reason := none }
    else
      { allowed := false, reason := some "You do not have permission to execute this approval-required transition." }

/-- Reference definition following the four spec rules word for word
(spec section 4.3), stated with propositional membership; used to compare
against the implementation in claim C1. -/
def canUserTransitionSpec (user : User) (transition : Transition)
    (blockedByTasks : Bool) : PermissionCheckResult :=
  if blockedByTasks then
    { allowed := false, reason := some "Required tasks are incomplete for this transition." }
  else if user.role = "admin" then
    { allowed := true, reason := none }
  else if transition.requiresApproval = false then
    { allowed := true, reason := none }
  else if user.role ∈ transition.approverRoles ∨ user.id ∈ transition.approverUserIds then
    { allowed := true, reason := none }
  else
    { allowed := false, reason := some "You do not have permission to execute this approval-required transition." }

/-- canUserExecuteTransition from src/utils/workflowValidation.ts: the second
permission evaluator, with no task gate and no admin bypass. -/
def canUserExecuteTransition (user : User) (transition : Transition) :
    PermissionCheckResult :=
  if !transition.requiresApproval then
    { allowed := true, reason := none }
  else
    let roleAllowed := transition.approverRoles.contains user.role
    let userAllowed := transition.approverUserIds.contains user.id
    if roleAllowed || userAllowed then
      { allowed := true, reason := none }
    else
      { allowed := false, reason := some "You do not have permission to execute this approval-required transition." }

/-- One entry of the list returned by getValidNextTransitions
(src/utils/transitionRules.ts). -/
structure NextTransitionOption where
  transition : Transition
  toStatus : Option Status
  incompleteTasks : List Task
  blockedByTasks : Bool
deriving DecidableEq, Repr

/-- taskOperations.getIncompleteByTransitionId from src/data/dataAccess.ts,
with the localStorage task store passed in as a list. -/
def getIncompleteByTransitionId (tasks : List Task) (transitionId : String) :
    List Task :=
  tasks.filter (fun task => task.transitionId == transitionId && !task.isCompleted)

/-- The idToStatus record built by getValidNextTransitions: a JavaScript
object filled by forEach, so when several statuses share an id the last one
written wins. -/
def lookupStatus (statuses : List Status) (sid : String) : Option Status :=
  (statuses.filter (fun s => s.id == sid)).getLast?

/-- getValidNextTransitions from src/utils/transitionRules.ts.  The task
store read through taskOperations is passed explicitly as `tasks`. -/
def getValidNextTransitions (tasks : List Task) (workflow : Option Workflow)
    (currentStatusId : String) (statuses : List Status) :
    List NextTransitionOption :=
  match workflow with
  | none => []
  | some wf =>
    let candidates := wf.transitions.filter (fun t => t.fromStatusId == currentStatusId)
    (candidates.filter (fun t => wf.statuses.contains t.toStatusId)).map (fun t =>
      let incompleteTasks := getIncompleteByTransitionId tasks t.id
      let requiredIncomplete := incompleteTasks.filter (fun task => task.isRequired)
      { transition := t,
        toStatus := lookupStatus statuses t.toStatusId,
        incompleteTasks := requiredIncomplete,
        blockedByTasks := decide (requiredIncomplete.length > 0) })

theorem lookupStatus_eq_none_iff (statuses : List Status) (sid : String) :
    lookupStatus statuses sid = none ↔ ∀ s ∈ statuses, s.id ≠ sid := by
  unfold lookupStatus
  rw [List.getLast?_eq_none_iff, List.filter_eq_nil_iff]
  simp

theorem lookupStatus_eq_some (statuses : List Status) (sid : String)
    (s : Status) (h : lookupStatus statuses sid = some s) :
    s ∈ statuses ∧ s.id = sid := by
  unfold lookupStatus at h
  have hmem : s ∈ statuses.filter (fun s => s.id == sid) :=
    List.mem_of_getLast?_eq_some h
  have := List.mem_filter.mp hmem
  simpa using this

/-- C4: the resolver returns exactly one option per workflow transition
leaving the current status whose target is still a member of the workflow
status set, in the original transition order; each option resolves toStatus
from the supplied status list (none when the id is absent there); and an
absent workflow yields the empty list. -/
theorem getValidNextTransitions_spec :
    (∀ (tasks : List Task) (currentStatusId : String) (statuses : List Status),
        getValidNextTransitions tasks none currentStatusId statuses = []) ∧
    (∀ (tasks : List Task) (wf : Workflow) (currentStatusId : String)
        (statuses : List Status),
        ((getValidNextTransitions tasks (some wf) currentStatusId statuses).map
            (fun o => o.transition) =
          wf.transitions.filter (fun t =>
            decide (t.fromStatusId = currentStatusId ∧ t.toStatusId ∈ wf.statuses))) ∧
        (∀ o ∈ getValidNextTransitions tasks (some wf) currentStatusId statuses,
          (o.toStatus = none ↔ ∀ s ∈ statuses, s.id ≠ o.transition.toStatusId) ∧
          (∀ s, o.toStatus = some s → s ∈ statuses ∧ s.id = o.transition.toStatusId))) := by
  refine ⟨fun _ _ _ => rfl, fun tasks wf currentStatusId statuses => ⟨?_, ?_⟩⟩
  · unfold getValidNextTransitions
    rw [List.map_map, List.filter_filter]
    have hid : ∀ t : Transition,
        ((fun o : NextTransitionOption => o.transition) ∘ (fun t : Transition =>
          ({ transition := t,
             toStatus := lookupStatus statuses t.toStatusId,
             incompleteTasks := (getIncompleteByTransitionId tasks t.id).filter
               (fun task => task.isRequired),
             blockedByTasks := decide (((getIncompleteByTransitionId tasks t.id).filter
               (fun task => task.isRequired)).length > 0) } : NextTransitionOption))) t = t :=
      fun t => rfl
    rw [List.map_congr_left (fun t _ => hid t), List.map_id']
    apply List.filter_congr
    intro t _
    rw [Bool.eq_iff_iff]
    simp [and_comm]
  · intro o ho
    unfold getValidNextTransitions at ho
    obtain ⟨t, _, rfl⟩ := List.mem_map.mp ho
    refine ⟨?_, fun s hs => lookupStatus_eq_some statuses _ s hs⟩
    exact lookupStatus_eq_none_iff statuses _

/-- C5: in every returned option, incompleteTasks is exactly the list of
store tasks attached to that transition that are incomplete and required,
and blockedByTasks is true exactly when that list is non-empty. -/
theorem getValidNextTransitions_taskGate (tasks : List Task) (wf : Workflow)
    (currentStatusId : String) (statuses : List Status)
    (o : NextTransitionOption)
    (ho : o ∈ getValidNextTransitions tasks (some wf) currentStatusId statuses) :
    o.incompleteTasks = tasks.filter (fun task =>
      decide (task.transitionId = o.transition.id ∧
        task.isCompleted = false ∧ task.isRequired = true)) ∧
    (o.blockedByTasks = true ↔ o.incompleteTasks ≠ []) := by
  unfold getValidNextTransitions at ho
  obtain ⟨t, _, rfl⟩ := List.mem_map.mp ho
  constructor
  · show (getIncompleteByTransitionId tasks t.id).filter (fun task => task.isRequired) = _
    unfold getIncompleteByTransitionId
    rw [List.filter_filter]
    apply List.filter_congr
    intro task _
    rw [Bool.eq_iff_iff]
    simp only [Bool.and_eq_true, Bool.not_eq_true', beq_iff_eq, decide_eq_true_iff]
    tauto
  · show decide (((getIncompleteByTransitionId tasks t.id).filter
        (fun task => task.isRequired)).length > 0) = true ↔
      (getIncompleteByTransitionId tasks t.id).filter (fun task => task.isRequired) ≠ []
    rw [decide_eq_true_iff]
    exact List.length_pos

/-- C1: canUserTransition implements the four-rule decision order exactly as
the spec states it: the task gate first (overriding even admin), then the
admin bypass, then the no-approval shortcut, then membership of the user role
in approverRoles or the user id in approverUserIds, with the stated reason
strings on the two denial outcomes. -/
theorem canUserTransition_matches_spec (user : User) (transition : Transition)
    (blockedByTasks : Bool) :
    canUserTransition user transition blockedByTasks =
      canUserTransitionSpec user transition blockedByTasks := by
  unfold canUserTransition canUserTransitionSpec
  by_cases hb : blockedByTasks
  · simp [hb]
  · by_cases hr : user.role = "admin"
    · simp [hb, hr]
    · by_cases ha : transition.requiresApproval
      · by_cases hm : user.role ∈ transition.approverRoles ∨ user.id ∈ transition.approverUserIds
        · simp [hb, hr, ha, hm]
        · simp [hb, hr, ha, hm]
      · simp [hb, hr, ha]

/-- C9: the repository has a second permission evaluator with no admin bypass
and no task gate: on every non-admin user it agrees with
canUserTransition(user, t, false), while an admin user facing an
approval-required transition that lists neither the admin role nor the user id
is denied by canUserExecuteTransition but allowed by canUserTransition. -/
theorem canUserExecuteTransition_vs_canUserTransition :
    (∀ (user : User) (t : Transition), user.role ≠ "admin" →
        canUserExecuteTransition user t = canUserTransition user t false) ∧
    (∀ (user : User) (t : Transition), user.role = "admin" →
        t.requiresApproval = true →
        "admin" ∉ t.approverRoles → user.id ∉ t.approverUserIds →
        (canUserExecuteTransition user t).allowed = false ∧
          (canUserTransition user t false).allowed = true) := by
  constructor
  · intro user t hrole
    unfold canUserExecuteTransition canUserTransition
    have : (user.role == "admin") = false := by
      simpa using hrole
    simp [this]
  · intro user t hrole happ hras huid
    unfold canUserExecuteTransition canUserTransition
    simp [hrole, happ, hras, huid]

/-- Closed instance for the C9 theorem: a concrete non-admin user agrees with
canUserTransition, and a concrete admin user on a concrete approval-required
transition is denied by one evaluator and allowed by the other. -/
theorem canUserExecuteTransition_vs_canUserTransition_witness :
    (canUserExecuteTransition
        { id := "u1", name := "N", email := "e", role := "user" }
        { id := "t1", fromStatusId := "A", toStatusId := "B",
          requiresApproval := true, approverRoles := ["manager"],
          approverUserIds := [] } =
      canUserTransition
        { id := "u1", name := "N", email := "e", role := "user" }
        { id := "t1", fromStatusId := "A", toStatusId := "B",
          requiresApproval := true, approverRoles := ["manager"],
          approverUserIds := [] } false) ∧
    ((canUserExecuteTransition
        { id := "u2", name := "M", email := "f", role := "admin" }
        { id := "t1", fromStatusId := "A", toStatusId := "B",
          requiresApproval := true, approverRoles := ["manager"],
          approverUserIds := [] }).allowed = false ∧
      (canUserTransition
        { id := "u2", name := "M", email := "f", role := "admin" }
        { id := "t1", fromStatusId := "A", toStatusId := "B",
          requiresApproval := true, approverRoles := ["manager"],
          approverUserIds := [] } false).allowed = true) :=
  ⟨canUserExecuteTransition_vs_canUserTransition.1 _ _ (by decide),
   canUserExecuteTransition_vs_canUserTransition.2 _ _ rfl rfl
     (by decide) (by decide)⟩


/-- Concrete status fixture used by closed witness instances. -/
def statusA : Status :=
  { id := "A", name := "Planning", color := "blue", description := "d",
    entityTypes := ["project"] }

/-- Concrete status fixture used by closed witness instances. -/
def statusB : Status :=
  { id := "B", name := "Review", color := "red", description := "d",
    entityTypes := ["project"] }

/-- Concrete transition A → B without approval. -/
def tAB : Transition :=
  { id := "t-ab", fromStatusId := "A", toStatusId := "B",
    requiresApproval := false, approverRoles := [], approverUserIds := [] }

/-- Concrete transition B → A without approval. -/
def tBA : Transition :=
  { id := "t-ba", fromStatusId := "B", toStatusId := "A",
    requiresApproval := false, approverRoles := [], approverUserIds := [] }

/-- Concrete transition B → C without approval. -/
def tBC : Transition :=
  { id := "t-bc", fromStatusId := "B", toStatusId := "C",
    requiresApproval := false, approverRoles := [], approverUserIds := [] }

/-- Concrete transition C → A without approval. -/
def tCA : Transition :=
  { id := "t-ca", fromStatusId := "C", toStatusId := "A",
    requiresApproval := false, approverRoles := [], approverUserIds := [] }

/-- Concrete required incomplete task gating transition t-ab. -/
def task1 : Task :=
  { id := "task-1", name := "n", description := "d", assignedUserId := "u1",
    deadline := none, isRequired := true, isCompleted := false,
    completedAt := none, completedBy := none, transitionId := "t-ab",
    createdAt := 0, updatedAt := 0 }

/-- Concrete workflow over statuses A, B with the single transition A → B. -/
def wfAB : Workflow :=
  { id := "wf-1", name := "W", description := "d", entityType := "project",
    statuses := ["A", "B"], transitions := [tAB], isDefault := false,
    createdAt := 0, updatedAt := 0 }

/-- Concrete workflow over statuses A, B, C with transitions A → B and B → C. -/
def wfABC : Workflow :=
  { id := "wf-2", name := "W2", description := "d", entityType := "project",
    statuses := ["A", "B", "C"], transitions := [tAB, tBC], isDefault := false,
    createdAt := 0, updatedAt := 0 }

/-- The option the resolver computes for wfAB from status A with task1 in the
store. -/
def optAB : NextTransitionOption :=
  { transition := tAB, toStatus := some statusB, incompleteTasks := [task1],
    blockedByTasks := true }

/-- Closed instance of the C4 theorem at the concrete fixture, discharging
the option-membership hypothesis on the computed option. -/
theorem getValidNextTransitions_spec_witness :
    (optAB.toStatus = none ↔ ∀ s ∈ [statusA, statusB], s.id ≠ optAB.transition.toStatusId) ∧
    (∀ s, optAB.toStatus = some s →
      s ∈ [statusA, statusB] ∧ s.id = optAB.transition.toStatusId) :=
  (getValidNextTransitions_spec.2 [task1] wfAB "A" [statusA, statusB]).2
    optAB (by decide)

/-- Closed instance of the C5 theorem at the concrete fixture: the computed
option carries exactly the required incomplete task and is blocked. -/
theorem getValidNextTransitions_taskGate_witness :
    optAB.incompleteTasks = [task1].filter (fun task =>
      decide (task.transitionId = optAB.transition.id ∧
        task.isCompleted = false ∧ task.isRequired = true)) ∧
    (optAB.blockedByTasks = true ↔ optAB.incompleteTasks ≠ []) :=
  getValidNextTransitions_taskGate [task1] wfAB "A" [statusA, statusB]
    optAB (by decide)
/-- In-degree of a status id: the number of transitions entering it.
hasStartAndEndNodes builds the same count by incrementing per transition. -/
def inDegreeOf (transitions : List Transition) (id : String) : Nat :=
  (transitions.filter (fun t => t.toStatusId == id)).length

/-- Out-degree of a status id: the number of transitions leaving it. -/
def outDegreeOf (transitions : List Transition) (id : String) : Nat :=
  (transitions.filter (fun t => t.fromStatusId == id)).length

/-- hasStartAndEndNodes from src/utils/workflowValidation.ts: trivially true
for at most one status, false for no transitions, otherwise demands a status
with in-degree 0 and positive out-degree and one with out-degree 0 and
positive in-degree. -/
def hasStartAndEndNodes (statusIds : List String)
    (transitions : List Transition) : Bool :=
  if statusIds.length ≤ 1 then true
  else if transitions.length == 0 then false
  else
    let hasStart := statusIds.any (fun id =>
      inDegreeOf transitions id == 0 && decide (outDegreeOf transitions id > 0))
    let hasEnd := statusIds.any (fun id =>
      outDegreeOf transitions id == 0 && decide (inDegreeOf transitions id > 0))
    hasStart && hasEnd

/-- C6: the start/end check passes on a status set of at most one member; on
larger sets it passes exactly when some status has in-degree 0 with positive
out-degree and some status has out-degree 0 with positive in-degree; and the
two concrete spec examples behave as stated. -/
theorem hasStartAndEndNodes_spec :
    (∀ (statusIds : List String) (transitions : List Transition),
        statusIds.length ≤ 1 → hasStartAndEndNodes statusIds transitions = true) ∧
    (∀ (statusIds : List String) (transitions : List Transition),
        1 < statusIds.length →
        (hasStartAndEndNodes statusIds transitions = true ↔
          (∃ id ∈ statusIds, inDegreeOf transitions id = 0 ∧
              0 < outDegreeOf transitions id) ∧
          (∃ id ∈ statusIds, outDegreeOf transitions id = 0 ∧
              0 < inDegreeOf transitions id))) ∧
    hasStartAndEndNodes ["A", "B"] [tAB] = true ∧
    hasStartAndEndNodes ["A", "B", "C"] [tAB, tBA] = false := by
  refine ⟨?_, ?_, by decide, by decide⟩
  · intro statusIds ts h
    unfold hasStartAndEndNodes
    simp [h]
  · intro statusIds ts h
    unfold hasStartAndEndNodes
    rw [if_neg (by omega)]
    by_cases hts : (ts.length == 0) = true
    · rw [if_pos hts]
      constructor
      · intro hf
        exact absurd hf (by simp)
      · rintro ⟨⟨id, _, _, hout⟩, _⟩
        have hnil : ts = [] := List.length_eq_zero.mp (by simpa using hts)
        subst hnil
        simp [outDegreeOf] at hout
    · rw [if_neg hts]
      simp only [Bool.and_eq_true, List.any_eq_true, beq_iff_eq,
        decide_eq_true_iff]

/-- Closed instance of the C6 theorem: the one-status case and the
two-status iff, with their length hypotheses discharged. -/
theorem hasStartAndEndNodes_spec_witness :
    hasStartAndEndNodes ["A"] [] = true ∧
    (hasStartAndEndNodes ["A", "B"] [tAB] = true ↔
      (∃ id ∈ ["A", "B"], inDegreeOf [tAB] id = 0 ∧ 0 < outDegreeOf [tAB] id) ∧
      (∃ id ∈ ["A", "B"], outDegreeOf [tAB] id = 0 ∧ 0 < inDegreeOf [tAB] id)) :=
  ⟨hasStartAndEndNodes_spec.1 ["A"] [] (by decide),
   hasStartAndEndNodes_spec.2.1 ["A", "B"] [tAB] (by decide)⟩

/-- taskOperations.markCompleted from src/data/dataAccess.ts: update the
first task whose id matches (findIndex semantics), setting isCompleted and
stamping completedAt, completedBy and updatedAt; the Date.now value is the
`now` argument.  Returns the saved store and the updated task, or the
unchanged store and none when the id is absent. -/
def markCompleted (tasks : List Task) (id completedByUserId : String)
    (now : Nat) : List Task × Option Task :=
  match tasks with
  | [] => ([], none)
  | task :: rest =>
    if task.id == id then
      let updated := { task with
        isCompleted := true, completedAt := some now,
        completedBy := some completedByUserId, updatedAt := now }
      (updated :: rest, some updated)
    else
      let r := markCompleted rest id completedByUserId now
      (task :: r.1, r.2)

/-- taskOperations.markIncomplete from src/data/dataAccess.ts: update the
first task whose id matches, clearing isCompleted and both stamps. -/
def markIncomplete (tasks : List Task) (id : String) (now : Nat) :
    List Task × Option Task :=
  match tasks with
  | [] => ([], none)
  | task :: rest =>
    if task.id == id then
      let updated := { task with
        isCompleted := false, completedAt := none,
        completedBy := none, updatedAt := now }
      (updated :: rest, some updated)
    else
      let r := markIncomplete rest id now
      (task :: r.1, r.2)

theorem markCompleted_found (id u : String) (now : Nat) :
    ∀ tasks : List Task, (∃ task ∈ tasks, task.id = id) →
      ∃ tk, (markCompleted tasks id u now).2 = some tk ∧
        tk ∈ (markCompleted tasks id u now).1 ∧ tk.id = id ∧
        tk.isCompleted = true ∧ tk.completedAt = some now ∧
        tk.completedBy = some u := by
  intro tasks
  induction tasks with
  | nil =>
    rintro ⟨t, ht, _⟩
    cases ht
  | cons task rest ih =>
    rintro ⟨t, ht, hid⟩
    by_cases h : (task.id == id) = true
    · refine ⟨{ task with
        isCompleted := true, completedAt := some now,
        completedBy := some u, updatedAt := now }, ?_, ?_, ?_, rfl, rfl, rfl⟩
      · simp [markCompleted, h]
      · simp [markCompleted, h]
      · simpa using h
    · have hmem : t ∈ rest := by
        rcases List.mem_cons.mp ht with h1 | h1
        · exact absurd (by simpa [h1] using hid) (by simpa using h)
        · exact h1
      obtain ⟨tk, h1, h2, h3, h4, h5, h6⟩ := ih ⟨t, hmem, hid⟩
      refine ⟨tk, ?_⟩
      simp only [markCompleted, if_neg h]
      exact ⟨h1, List.mem_cons_of_mem _ h2, h3, h4, h5, h6⟩

theorem markIncomplete_found (id : String) (now : Nat) :
    ∀ tasks : List Task, (∃ task ∈ tasks, task.id = id) →
      ∃ tk, (markIncomplete tasks id now).2 = some tk ∧
        tk ∈ (markIncomplete tasks id now).1 ∧ tk.id = id ∧
        tk.isCompleted = false ∧ tk.completedAt = none ∧
        tk.completedBy = none := by
  intro tasks
  induction tasks with
  | nil =>
    rintro ⟨t, ht, _⟩
    cases ht
  | cons task rest ih =>
    rintro ⟨t, ht, hid⟩
    by_cases h : (task.id == id) = true
    · refine ⟨{ task with
        isCompleted := false, completedAt := none,
        completedBy := none, updatedAt := now }, ?_, ?_, ?_, rfl, rfl, rfl⟩
      · simp [markIncomplete, h]
      · simp [markIncomplete, h]
      · simpa using h
    · have hmem : t ∈ rest := by
        rcases List.mem_cons.mp ht with h1 | h1
        · exact absurd (by simpa [h1] using hid) (by simpa using h)
        · exact h1
      obtain ⟨tk, h1, h2, h3, h4, h5, h6⟩ := ih ⟨t, hmem, hid⟩
      refine ⟨tk, ?_⟩
      simp only [markIncomplete, if_neg h]
      exact ⟨h1, List.mem_cons_of_mem _ h2, h3, h4, h5, h6⟩

/-- C7: for a task present in the store, markCompleted sets isCompleted and
stamps completedAt/completedBy, markIncomplete clears all three, and the
complete - undo - complete round trip ends completed with the stamps of the
last call only. -/
theorem taskOperations_roundTrip (tasks : List Task) (id u1 u2 : String)
    (n1 n2 n3 : Nat) (h : ∃ task ∈ tasks, task.id = id) :
    (∃ t1, (markCompleted tasks id u1 n1).2 = some t1 ∧
      t1.isCompleted = true ∧ t1.completedAt = some n1 ∧
      t1.completedBy = some u1) ∧
    (∃ t2, (markIncomplete (markCompleted tasks id u1 n1).1 id n2).2 = some t2 ∧
      t2.isCompleted = false ∧ t2.completedAt = none ∧ t2.completedBy = none) ∧
    (∃ t3, (markCompleted
        (markIncomplete (markCompleted tasks id u1 n1).1 id n2).1
        id u2 n3).2 = some t3 ∧
      t3.isCompleted = true ∧ t3.completedAt = some n3 ∧
      t3.completedBy = some u2) := by
  obtain ⟨t1, hs1, hm1, hid1, hc1, ha1, hb1⟩ := markCompleted_found id u1 n1 tasks h
  obtain ⟨t2, hs2, hm2, hid2, hc2, ha2, hb2⟩ :=
    markIncomplete_found id n2 _ ⟨t1, hm1, hid1⟩
  obtain ⟨t3, hs3, hm3, hid3, hc3, ha3, hb3⟩ :=
    markCompleted_found id u2 n3 _ ⟨t2, hm2, hid2⟩
  exact ⟨⟨t1, hs1, hc1, ha1, hb1⟩, ⟨t2, hs2, hc2, ha2, hb2⟩,
    ⟨t3, hs3, hc3, ha3, hb3⟩⟩

/-- Closed instance of the C7 round trip on the concrete one-task store. -/
theorem taskOperations_roundTrip_witness :
    (∃ t1, (markCompleted [task1] "task-1" "u1" 1).2 = some t1 ∧
      t1.isCompleted = true ∧ t1.completedAt = some 1 ∧
      t1.completedBy = some "u1") ∧
    (∃ t2, (markIncomplete (markCompleted [task1] "task-1" "u1" 1).1
        "task-1" 2).2 = some t2 ∧
      t2.isCompleted = false ∧ t2.completedAt = none ∧ t2.completedBy = none) ∧
    (∃ t3, (markCompleted
        (markIncomplete (markCompleted [task1] "task-1" "u1" 1).1 "task-1" 2).1
        "task-1" "u2" 3).2 = some t3 ∧
      t3.isCompleted = true ∧ t3.completedAt = some 3 ∧
      t3.completedBy = some "u2") :=
  taskOperations_roundTrip [task1] "task-1" "u1" "u2" 1 2 3
    ⟨task1, by decide, rfl⟩
/-- Neighbor list of x in the adjacency object hasCycle builds: the target
ids of the transitions leaving x, in transition order.  Ids that are no key
of the object also get the empty list, matching `graph[node] || []`. -/
def neighborsOf (ts : List Transition) (x : String) : List String :=
  (ts.filter (fun t => t.fromStatusId == x)).map (fun t => t.toStatusId)

/-- First-occurrence deduplication, matching JavaScript object key order:
statusIds first, then the fromStatusIds not already present.  Later
duplicates are filtered out after the recursive call, which keeps the
definition structurally recursive. -/
def dedupFirst : List String → List String
  | [] => []
  | x :: xs => x :: (dedupFirst xs).filter (fun y => y != x)

/-- Write one entry of the visited map (0 unvisited, 1 visiting, 2 done). -/
def vset (v : String → Nat) (x : String) (c : Nat) : String → Nat :=
  fun y => if y == x then c else v y

/-- The for-of loop over a neighbor list inside dfs: run f on each neighbor,
threading the visited map, returning at the first true. -/
def dfsList (f : (String → Nat) → String → Option (Bool × (String → Nat))) :
    (String → Nat) → List String → Option (Bool × (String → Nat))
  | v, [] => some (false, v)
  | v, nxt :: rest =>
    match f v nxt with
    | none => none
    | some (true, w) => some (true, w)
    | some (false, w) => dfsList f w rest

/-- The recursive dfs closure of hasCycle: true at a visiting node, false at
a done node, otherwise mark visiting, walk the neighbors and mark done.  The
Nat fuel only bounds the recursion depth; dfsVisit_isSome shows the fuel
chosen by hasCycleOpt never runs out. -/
def dfsVisit (g : String → List String) : Nat → (String → Nat) → String →
    Option (Bool × (String → Nat))
  | 0, _, _ => none
  | fuel + 1, v, node =>
    if v node == 1 then some (true, v)
    else if v node == 2 then some (false, v)
    else
      match dfsList (dfsVisit g fuel) (vset v node 1) (g node) with
      | none => none
      | some (true, w) => some (true, w)
      | some (false, w) => some (false, vset w node 2)

/-- The outer for-of loop of hasCycle over the object keys, skipping already
visited nodes. -/
def dfsForest (g : String → List String) (fuel : Nat) :
    List String → (String → Nat) → Option Bool
  | [], _ => some false
  | n :: rest, v =>
    if v n == 0 then
      match dfsVisit g fuel v n with
      | none => none
      | some (true, _) => some true
      | some (false, w) => dfsForest g fuel rest w
    else dfsForest g fuel rest v

/-- hasCycle from src/utils/workflowValidation.ts, the recursion depth
bounded by one more than the length of the id universe; the keys of the
graph object are the statusIds followed by the fromStatusIds not already
among them. -/
def hasCycleOpt (statusIds : List String) (ts : List Transition) :
    Option Bool :=
  let fuel := (statusIds ++ ts.map (fun t => t.fromStatusId)
      ++ ts.map (fun t => t.toStatusId)).length + 1
  dfsForest (neighborsOf ts) fuel
    (dedupFirst (statusIds ++ ts.map (fun t => t.fromStatusId))) (fun _ => 0)

/-- The Bool result of hasCycle; hasCycleOpt_total shows the default branch
is never taken. -/
def hasCycle (statusIds : List String) (ts : List Transition) : Bool :=
  (hasCycleOpt statusIds ts).getD false

/-- One directed edge of the transition graph. -/
def Step (ts : List Transition) (a b : String) : Prop :=
  ∃ t, t ∈ ts ∧ t.fromStatusId = a ∧ t.toStatusId = b

theorem mem_neighborsOf {ts : List Transition} {a b : String} :
    b ∈ neighborsOf ts a ↔ Step ts a b := by
  unfold neighborsOf Step
  constructor
  · intro h
    obtain ⟨t, htf, hb⟩ := List.mem_map.mp h
    obtain ⟨ht, hf⟩ := List.mem_filter.mp htf
    exact ⟨t, ht, by simpa using hf, hb⟩
  · rintro ⟨t, ht, hf, hb⟩
    exact List.mem_map.mpr ⟨t, List.mem_filter.mpr ⟨ht, by simpa using hf⟩, hb⟩

theorem mem_dedupFirst {l : List String} {x : String} :
    x ∈ dedupFirst l ↔ x ∈ l := by
  induction l with
  | nil => rw [dedupFirst]
  | cons y ys ih =>
    rw [dedupFirst, List.mem_cons, List.mem_cons, List.mem_filter, ih]
    constructor
    · rintro (h | ⟨h, _⟩)
      · exact Or.inl h
      · exact Or.inr h
    · rintro (h | h)
      · exact Or.inl h
      · by_cases hxy : x = y
        · exact Or.inl hxy
        · exact Or.inr ⟨h, by simpa using hxy⟩

/-- Number of ids of U still unvisited under v. -/
def whiteCount (U : List String) (v : String → Nat) : Nat :=
  (U.filter (fun x => v x == 0)).length

theorem whiteCount_le_of_imp {U : List String} {v w : String → Nat}
    (h : ∀ x, w x = 0 → v x = 0) : whiteCount U w ≤ whiteCount U v :=
  (List.monotone_filter_right U (fun x hx => by
    simpa using h x (by simpa using hx))).length_le

theorem length_filter_lt {α : Type} {p q : α → Bool}
    (himp : ∀ y, p y = true → q y = true) {x : α} :
    ∀ {l : List α}, x ∈ l → p x = false → q x = true →
      (l.filter p).length < (l.filter q).length := by
  intro l
  induction l with
  | nil => intro h; cases h
  | cons a l ih =>
    intro hm hp hq
    rcases List.mem_cons.mp hm with rfl | hm2
    · rw [List.filter_cons_of_neg (by simp [hp]), List.filter_cons_of_pos hq]
      exact Nat.lt_succ_of_le (List.monotone_filter_right l himp).length_le
    · by_cases hpa : p a = true
      · rw [List.filter_cons_of_pos hpa, List.filter_cons_of_pos (himp a hpa)]
        exact Nat.succ_lt_succ (ih hm2 hp hq)
      · rw [List.filter_cons_of_neg (by simpa using hpa)]
        by_cases hqa : q a = true
        · rw [List.filter_cons_of_pos hqa]
          exact Nat.lt_succ_of_le (Nat.le_of_lt (ih hm2 hp hq))
        · rw [List.filter_cons_of_neg (by simpa using hqa)]
          exact ih hm2 hp hq

theorem whiteCount_vset_lt {U : List String} {v : String → Nat} {x : String}
    {c : Nat} (hxU : x ∈ U) (hx : v x = 0) (hc : c ≠ 0) :
    whiteCount U (vset v x c) < whiteCount U v := by
  unfold whiteCount
  refine length_filter_lt (fun y hy => ?_) hxU ?_ (by simpa using hx)
  · by_cases hyx : y = x
    · subst hyx
      simp [vset, hc] at hy
    · simpa using by simpa [vset, hyx] using hy
  · simp [vset, hc]
/-- Facts one dfs call guarantees about the visited map: marks are never
erased, done marks persist, values only move to visiting or done, and a
false return keeps the visiting set unchanged and leaves the argument node
done. -/
def DfsStateOk (v w : String → Nat) (node : String) (b : Bool) : Prop :=
  (∀ x, v x ≠ 0 → w x ≠ 0) ∧ (∀ x, v x = 2 → w x = 2) ∧
  (∀ x, w x = v x ∨ w x = 1 ∨ w x = 2) ∧
  (b = false → (∀ x, (w x = 1 ↔ v x = 1)) ∧ w node = 2)

/-- The same facts for the loop over a neighbor list: on a false return
every listed node ends done. -/
def DfsListStateOk (v w : String → Nat) (l : List String) (b : Bool) : Prop :=
  (∀ x, v x ≠ 0 → w x ≠ 0) ∧ (∀ x, v x = 2 → w x = 2) ∧
  (∀ x, w x = v x ∨ w x = 1 ∨ w x = 2) ∧
  (b = false → (∀ x, (w x = 1 ↔ v x = 1)) ∧ ∀ n ∈ l, w n = 2)

theorem dfsList_state {f : (String → Nat) → String → Option (Bool × (String → Nat))}
    (hf : ∀ v n b w, f v n = some (b, w) → DfsStateOk v w n b) :
    ∀ (l : List String) (v : String → Nat) (b : Bool) (w : String → Nat),
      dfsList f v l = some (b, w) → DfsListStateOk v w l b := by
  intro l
  induction l with
  | nil =>
    intro v b w h
    simp only [dfsList, Option.some.injEq, Prod.mk.injEq] at h
    obtain ⟨hb, hw⟩ := h
    subst hb
    subst hw
    exact ⟨fun x hx => hx, fun x hx => hx, fun x => Or.inl rfl,
      fun _ => ⟨fun x => Iff.rfl, fun n hn => absurd hn (List.not_mem_nil n)⟩⟩
  | cons nxt rest ih =>
    intro v b w h
    simp only [dfsList] at h
    cases hf0 : f v nxt with
    | none => rw [hf0] at h; cases h
    | some bw =>
      obtain ⟨b1, w1⟩ := bw
      rw [hf0] at h
      cases b1 with
      | true =>
        simp only [Option.some.injEq, Prod.mk.injEq] at h
        obtain ⟨hb, hw⟩ := h
        subst hb
        subst hw
        obtain ⟨h1, h2, h3, _⟩ := hf v nxt true w1 hf0
        exact ⟨h1, h2, h3, fun hfalse => by cases hfalse⟩
      | false =>
        obtain ⟨h1, h2, h3, h4⟩ := hf v nxt false w1 hf0
        obtain ⟨g1, g2, g3, g4⟩ := ih w1 b w h
        refine ⟨fun x hx => g1 x (h1 x hx), fun x hx => g2 x (h2 x hx), ?_, ?_⟩
        · intro x
          rcases g3 x with hg | hg | hg
          · rw [hg]
            exact h3 x
          · exact Or.inr (Or.inl hg)
          · exact Or.inr (Or.inr hg)
        · intro hb
          obtain ⟨hgray1, hnode1⟩ := h4 rfl
          obtain ⟨hgray2, hmem2⟩ := g4 hb
          refine ⟨fun x => (hgray2 x).trans (hgray1 x), ?_⟩
          intro n hn
          rcases List.mem_cons.mp hn with rfl | hn2
          · exact g2 n hnode1
          · exact hmem2 n hn2

theorem dfsVisit_state {g : String → List String} :
    ∀ (fuel : Nat) (v : String → Nat) (node : String) (b : Bool)
      (w : String → Nat),
      dfsVisit g fuel v node = some (b, w) → DfsStateOk v w node b := by
  intro fuel
  induction fuel with
  | zero => intro v node b w h; cases h
  | succ fuel ih =>
    intro v node b w h
    simp only [dfsVisit] at h
    by_cases h1 : (v node == 1) = true
    · rw [if_pos h1] at h
      simp only [Option.some.injEq, Prod.mk.injEq] at h
      obtain ⟨hb, hw⟩ := h
      subst hb
      subst hw
      exact ⟨fun x hx => hx, fun x hx => hx, fun x => Or.inl rfl,
        fun hfalse => by cases hfalse⟩
    · rw [if_neg h1] at h
      by_cases h2 : (v node == 2) = true
      · rw [if_pos h2] at h
        simp only [Option.some.injEq, Prod.mk.injEq] at h
        obtain ⟨hb, hw⟩ := h
        subst hb
        subst hw
        exact ⟨fun x hx => hx, fun x hx => hx, fun x => Or.inl rfl,
          fun _ => ⟨fun x => Iff.rfl, by simpa using h2⟩⟩
      · rw [if_neg h2] at h
        have hnode1 : v node ≠ 1 := by simpa using h1
        have hnode2 : v node ≠ 2 := by simpa using h2
        cases hd : dfsList (dfsVisit g fuel) (vset v node 1) (g node) with
        | none => rw [hd] at h; cases h
        | some bw =>
          obtain ⟨b1, w1⟩ := bw
          rw [hd] at h
          obtain ⟨s1, s2, s3, s4⟩ :=
            dfsList_state (fun v n b w hcall => ih v n b w hcall)
              (g node) (vset v node 1) b1 w1 hd
          have hvset_mono : ∀ x, v x ≠ 0 → vset v node 1 x ≠ 0 := by
            intro x hx
            unfold vset
            by_cases hxn : (x == node) = true
            · rw [if_pos hxn]; exact one_ne_zero
            · rw [if_neg hxn]; exact hx
          have hvset_black : ∀ x, v x = 2 → vset v node 1 x = 2 := by
            intro x hx
            unfold vset
            by_cases hxn : (x == node) = true
            · have hxeq : x = node := by simpa using hxn
              subst hxeq
              exact absurd hx hnode2
            · rw [if_neg hxn]; exact hx
          cases b1 with
          | true =>
            simp only [Option.some.injEq, Prod.mk.injEq] at h
            obtain ⟨hb, hw⟩ := h
            subst hb
            subst hw
            refine ⟨fun x hx => s1 x (hvset_mono x hx),
              fun x hx => s2 x (hvset_black x hx), ?_,
              fun hfalse => by cases hfalse⟩
            intro x
            rcases s3 x with hs | hs | hs
            · unfold vset at hs
              by_cases hxn : (x == node) = true
              · rw [if_pos hxn] at hs
                exact Or.inr (Or.inl hs)
              · rw [if_neg hxn] at hs
                exact Or.inl hs
            · exact Or.inr (Or.inl hs)
            · exact Or.inr (Or.inr hs)
          | false =>
            simp only [Option.some.injEq, Prod.mk.injEq] at h
            obtain ⟨hb, hw⟩ := h
            subst hb
            subst hw
            obtain ⟨hgray, hdone⟩ := s4 rfl
            have hwnode : vset w1 node 2 node = 2 := by
              unfold vset
              rw [if_pos (by simp)]
            refine ⟨?_, ?_, ?_, fun _ => ⟨?_, hwnode⟩⟩
            · intro x hx
              unfold vset
              by_cases hxn : (x == node) = true
              · rw [if_pos hxn]; exact two_ne_zero
              · rw [if_neg hxn]; exact s1 x (hvset_mono x hx)
            · intro x hx
              unfold vset
              by_cases hxn : (x == node) = true
              · rw [if_pos hxn]
              · rw [if_neg hxn]; exact s2 x (hvset_black x hx)
            · intro x
              unfold vset
              by_cases hxn : (x == node) = true
              · rw [if_pos hxn]
                exact Or.inr (Or.inr rfl)
              · rw [if_neg hxn]
                rcases s3 x with hs | hs | hs
                · unfold vset at hs
                  rw [if_neg hxn] at hs
                  exact Or.inl hs
                · exact Or.inr (Or.inl hs)
                · exact Or.inr (Or.inr hs)
            · intro x
              unfold vset
              by_cases hxn : (x == node) = true
              · rw [if_pos hxn]
                have hxeq : x = node := by simpa using hxn
                subst hxeq
                constructor
                · intro hcon; cases hcon
                · intro hcon; exact absurd hcon hnode1
              · rw [if_neg hxn]
                rw [hgray x]
                unfold vset
                rw [if_neg hxn]
theorem dfsList_isSome {f : (String → Nat) → String → Option (Bool × (String → Nat))}
    {U : List String} {fuel : Nat}
    (hf_some : ∀ v n, n ∈ U → (∀ x, v x = 0 ∨ v x = 1 ∨ v x = 2) →
      whiteCount U v < fuel → (f v n).isSome = true)
    (hf_state : ∀ v n b w, f v n = some (b, w) → DfsStateOk v w n b) :
    ∀ (l : List String) (v : String → Nat), (∀ n ∈ l, n ∈ U) →
      (∀ x, v x = 0 ∨ v x = 1 ∨ v x = 2) → whiteCount U v < fuel →
      (dfsList f v l).isSome = true := by
  intro l
  induction l with
  | nil =>
    intro v _ _ _
    simp [dfsList]
  | cons nxt rest ih =>
    intro v hl hr hc
    simp only [dfsList]
    cases hf0 : f v nxt with
    | none =>
      have := hf_some v nxt (hl nxt (List.mem_cons_self _ _)) hr hc
      rw [hf0] at this
      cases this
    | some bw =>
      obtain ⟨b1, w1⟩ := bw
      obtain ⟨m1, m2, m3, _⟩ := hf_state v nxt b1 w1 hf0
      cases b1 with
      | true => simp
      | false =>
        have hr1 : ∀ x, w1 x = 0 ∨ w1 x = 1 ∨ w1 x = 2 := by
          intro x
          rcases m3 x with hm | hm | hm
          · rw [hm]; exact hr x
          · exact Or.inr (Or.inl hm)
          · exact Or.inr (Or.inr hm)
        have hc1 : whiteCount U w1 < fuel :=
          lt_of_le_of_lt (whiteCount_le_of_imp (fun x hx => by
            by_contra hvx
            exact m1 x hvx hx)) hc
        exact ih w1 (fun n hn => hl n (List.mem_cons_of_mem _ hn)) hr1 hc1

theorem dfsVisit_isSome {g : String → List String} {U : List String}
    (hg : ∀ x y, y ∈ g x → y ∈ U) :
    ∀ (fuel : Nat) (v : String → Nat) (node : String), node ∈ U →
      (∀ x, v x = 0 ∨ v x = 1 ∨ v x = 2) → whiteCount U v < fuel →
      (dfsVisit g fuel v node).isSome = true := by
  intro fuel
  induction fuel with
  | zero =>
    intro v node _ _ hc
    exact absurd hc (Nat.not_lt_zero _)
  | succ fuel ih =>
    intro v node hn hr hc
    simp only [dfsVisit]
    by_cases h1 : (v node == 1) = true
    · rw [if_pos h1]
      simp
    · rw [if_neg h1]
      by_cases h2 : (v node == 2) = true
      · rw [if_pos h2]
        simp
      · rw [if_neg h2]
        have hnode0 : v node = 0 := by
          rcases hr node with h | h | h
          · exact h
          · exact absurd h (by simpa using h1)
          · exact absurd h (by simpa using h2)
        have hr1 : ∀ x, vset v node 1 x = 0 ∨ vset v node 1 x = 1 ∨
            vset v node 1 x = 2 := by
          intro x
          unfold vset
          by_cases hxn : (x == node) = true
          · rw [if_pos hxn]
            exact Or.inr (Or.inl rfl)
          · rw [if_neg hxn]
            exact hr x
        have hc1 : whiteCount U (vset v node 1) < fuel :=
          lt_of_lt_of_le (whiteCount_vset_lt hn hnode0 one_ne_zero)
            (Nat.lt_succ_iff.mp hc)
        have hlist := dfsList_isSome (fun v n hnU hrv hcv => ih v n hnU hrv hcv)
          (fun v n b w hcall => dfsVisit_state fuel v n b w hcall)
          (g node) (vset v node 1) (fun n hmem => hg node n hmem) hr1 hc1
        cases hd : dfsList (dfsVisit g fuel) (vset v node 1) (g node) with
        | none =>
          rw [hd] at hlist
          cases hlist
        | some bw =>
          obtain ⟨b1, w1⟩ := bw
          cases b1 with
          | true => simp
          | false => simp

theorem dfsForest_isSome {g : String → List String} {U : List String}
    (hg : ∀ x y, y ∈ g x → y ∈ U) (fuel : Nat) :
    ∀ (keys : List String) (v : String → Nat), (∀ n ∈ keys, n ∈ U) →
      (∀ x, v x = 0 ∨ v x = 1 ∨ v x = 2) → whiteCount U v < fuel →
      (dfsForest g fuel keys v).isSome = true := by
  intro keys
  induction keys with
  | nil =>
    intro v _ _ _
    simp [dfsForest]
  | cons n rest ih =>
    intro v hk hr hc
    simp only [dfsForest]
    by_cases h0 : (v n == 0) = true
    · rw [if_pos h0]
      have hv := dfsVisit_isSome hg fuel v n (hk n (List.mem_cons_self _ _)) hr hc
      cases hd : dfsVisit g fuel v n with
      | none =>
        rw [hd] at hv
        cases hv
      | some bw =>
        obtain ⟨b1, w1⟩ := bw
        obtain ⟨m1, m2, m3, _⟩ := dfsVisit_state fuel v n b1 w1 hd
        cases b1 with
        | true => simp
        | false =>
          have hr1 : ∀ x, w1 x = 0 ∨ w1 x = 1 ∨ w1 x = 2 := by
            intro x
            rcases m3 x with hm | hm | hm
            · rw [hm]; exact hr x
            · exact Or.inr (Or.inl hm)
            · exact Or.inr (Or.inr hm)
          have hc1 : whiteCount U w1 < fuel :=
            lt_of_le_of_lt (whiteCount_le_of_imp (fun x hx => by
              by_contra hvx
              exact m1 x hvx hx)) hc
          exact ih w1 (fun m hm => hk m (List.mem_cons_of_mem _ hm)) hr1 hc1
    · rw [if_neg h0]
      exact ih v (fun m hm => hk m (List.mem_cons_of_mem _ hm)) hr hc

theorem hasCycleOpt_total (statusIds : List String) (ts : List Transition) :
    (hasCycleOpt statusIds ts).isSome = true := by
  unfold hasCycleOpt
  refine dfsForest_isSome (U := statusIds ++ ts.map (fun t => t.fromStatusId)
      ++ ts.map (fun t => t.toStatusId)) ?_ _ _ _ ?_ (fun x => Or.inl rfl) ?_
  · intro x y hy
    obtain ⟨t, htf, hb⟩ := List.mem_map.mp hy
    exact List.mem_append.mpr (Or.inr (List.mem_map.mpr
      ⟨t, (List.mem_filter.mp htf).1, hb⟩))
  · intro n hn
    exact List.mem_append.mpr (Or.inl (mem_dedupFirst.mp hn))
  · exact Nat.lt_succ_of_le (List.length_filter_le _ _)
theorem dfsList_sound {f : (String → Nat) → String → Option (Bool × (String → Nat))}
    {R : String → String → Prop}
    (hf_sound : ∀ v n w, (∀ x, v x = 1 → Relation.TransGen R x n) →
      f v n = some (true, w) → ∃ z, Relation.TransGen R z z)
    (hf_state : ∀ v n b w, f v n = some (b, w) → DfsStateOk v w n b) :
    ∀ (l : List String) (v w : String → Nat),
      (∀ n ∈ l, ∀ x, v x = 1 → Relation.TransGen R x n) →
      dfsList f v l = some (true, w) → ∃ z, Relation.TransGen R z z := by
  intro l
  induction l with
  | nil =>
    intro v w _ h
    simp [dfsList] at h
  | cons nxt rest ih =>
    intro v w hpre h
    simp only [dfsList] at h
    cases hf0 : f v nxt with
    | none => rw [hf0] at h; cases h
    | some bw =>
      obtain ⟨b1, w1⟩ := bw
      rw [hf0] at h
      cases b1 with
      | true => exact hf_sound v nxt w1 (hpre nxt (List.mem_cons_self _ _)) hf0
      | false =>
        obtain ⟨_, _, _, h4⟩ := hf_state v nxt false w1 hf0
        obtain ⟨hgray, _⟩ := h4 rfl
        exact ih w1 w (fun n hn x hx =>
          hpre n (List.mem_cons_of_mem _ hn) x ((hgray x).mp hx)) h

theorem dfsVisit_sound {g : String → List String} {R : String → String → Prop}
    (hgR : ∀ x y, y ∈ g x → R x y) :
    ∀ (fuel : Nat) (v : String → Nat) (node : String) (w : String → Nat),
      (∀ x, v x = 1 → Relation.TransGen R x node) →
      dfsVisit g fuel v node = some (true, w) →
      ∃ z, Relation.TransGen R z z := by
  intro fuel
  induction fuel with
  | zero => intro v node w _ h; cases h
  | succ fuel ih =>
    intro v node w hpre h
    simp only [dfsVisit] at h
    by_cases h1 : (v node == 1) = true
    · exact ⟨node, hpre node (by simpa using h1)⟩
    · rw [if_neg h1] at h
      by_cases h2 : (v node == 2) = true
      · rw [if_pos h2] at h
        simp at h
      · rw [if_neg h2] at h
        cases hd : dfsList (dfsVisit g fuel) (vset v node 1) (g node) with
        | none => rw [hd] at h; cases h
        | some bw =>
          obtain ⟨b1, w1⟩ := bw
          rw [hd] at h
          cases b1 with
          | false => simp at h
          | true =>
            refine dfsList_sound (fun v1 n1 w1a hp hcall => ih v1 n1 w1a hp hcall)
              (fun v1 n1 b1a w1a hcall => dfsVisit_state fuel v1 n1 b1a w1a hcall)
              (g node) (vset v node 1) w1 ?_ hd
            intro n hn x hx
            unfold vset at hx
            by_cases hxn : (x == node) = true
            · have hxeq : x = node := by simpa using hxn
              subst hxeq
              exact Relation.TransGen.single (hgR x n hn)
            · rw [if_neg hxn] at hx
              exact (hpre x hx).tail (hgR node n hn)

/-- Invariant for the acyclicity direction: every successor of a done node
is done, and no done node lies on a cycle. -/
def ClosedInv (R : String → String → Prop) (v : String → Nat) : Prop :=
  (∀ b, v b = 2 → ∀ c, R b c → v c = 2) ∧
  (∀ b, v b = 2 → ¬ Relation.TransGen R b b)

theorem black_reach {R : String → String → Prop} {v : String → Nat}
    (hcl : ∀ b, v b = 2 → ∀ c, R b c → v c = 2) {a y : String}
    (ha : v a = 2) (h : Relation.ReflTransGen R a y) : v y = 2 := by
  induction h with
  | refl => exact ha
  | tail hab hbc ih => exact hcl _ ih _ hbc

theorem dfsList_closed {f : (String → Nat) → String → Option (Bool × (String → Nat))}
    {R : String → String → Prop}
    (hf_closed : ∀ v n w, ClosedInv R v → f v n = some (false, w) →
      ClosedInv R w ∧ w n = 2)
    (hf_state : ∀ v n b w, f v n = some (b, w) → DfsStateOk v w n b) :
    ∀ (l : List String) (v w : String → Nat), ClosedInv R v →
      dfsList f v l = some (false, w) →
      ClosedInv R w ∧ ∀ n ∈ l, w n = 2 := by
  intro l
  induction l with
  | nil =>
    intro v w hcl h
    simp only [dfsList, Option.some.injEq, Prod.mk.injEq] at h
    obtain ⟨_, hw⟩ := h
    subst hw
    exact ⟨hcl, fun n hn => absurd hn (List.not_mem_nil n)⟩
  | cons nxt rest ih =>
    intro v w hcl h
    simp only [dfsList] at h
    cases hf0 : f v nxt with
    | none => rw [hf0] at h; cases h
    | some bw =>
      obtain ⟨b1, w1⟩ := bw
      rw [hf0] at h
      cases b1 with
      | true => simp at h
      | false =>
        obtain ⟨hcl1, hn1⟩ := hf_closed v nxt w1 hcl hf0
        obtain ⟨hcl2, hmem⟩ := ih w1 w hcl1 h
        obtain ⟨_, hblack, _, _⟩ := dfsList_state hf_state rest w1 false w h
        refine ⟨hcl2, fun n hn => ?_⟩
        rcases List.mem_cons.mp hn with rfl | hn2
        · exact hblack n hn1
        · exact hmem n hn2

theorem dfsVisit_closed {g : String → List String} {R : String → String → Prop}
    (hRg : ∀ x y, R x y → y ∈ g x) :
    ∀ (fuel : Nat) (v : String → Nat) (node : String) (w : String → Nat),
      ClosedInv R v → dfsVisit g fuel v node = some (false, w) →
      ClosedInv R w ∧ w node = 2 := by
  intro fuel
  induction fuel with
  | zero => intro v node w _ h; cases h
  | succ fuel ih =>
    intro v node w hcl h
    simp only [dfsVisit] at h
    by_cases h1 : (v node == 1) = true
    · rw [if_pos h1] at h
      simp at h
    · rw [if_neg h1] at h
      by_cases h2 : (v node == 2) = true
      · rw [if_pos h2] at h
        simp only [Option.some.injEq, Prod.mk.injEq] at h
        obtain ⟨_, hw⟩ := h
        subst hw
        exact ⟨hcl, by simpa using h2⟩
      · rw [if_neg h2] at h
        have hnode2 : v node ≠ 2 := by simpa using h2
        have hnode1 : v node ≠ 1 := by simpa using h1
        cases hd : dfsList (dfsVisit g fuel) (vset v node 1) (g node) with
        | none => rw [hd] at h; cases h
        | some bw =>
          obtain ⟨b1, w1⟩ := bw
          rw [hd] at h
          cases b1 with
          | true => simp at h
          | false =>
            simp only [Option.some.injEq, Prod.mk.injEq] at h
            obtain ⟨_, hw⟩ := h
            subst hw
            have hcl1 : ClosedInv R (vset v node 1) := by
              obtain ⟨hc1, hc2⟩ := hcl
              have hvb : ∀ b, vset v node 1 b = 2 → v b = 2 := by
                intro b hb
                unfold vset at hb
                by_cases hbn : (b == node) = true
                · rw [if_pos hbn] at hb
                  cases hb
                · rw [if_neg hbn] at hb
                  exact hb
              constructor
              · intro b hb c hRbc
                have hvc : v c = 2 := hc1 b (hvb b hb) c hRbc
                have hcnode : c ≠ node := fun hcn => hnode2 (hcn ▸ hvc)
                unfold vset
                rw [if_neg (by simpa using hcnode)]
                exact hvc
              · intro b hb
                exact hc2 b (hvb b hb)
            obtain ⟨hcl2, hmem⟩ := dfsList_closed
              (fun v1 n1 w1a hclv hcall => ih v1 n1 w1a hclv hcall)
              (fun v1 n1 b1a w1a hcall => dfsVisit_state fuel v1 n1 b1a w1a hcall)
              (g node) (vset v node 1) w1 hcl1 hd
            obtain ⟨_, _, _, h4⟩ := dfsList_state
              (fun v1 n1 b1a w1a hcall => dfsVisit_state fuel v1 n1 b1a w1a hcall)
              (g node) (vset v node 1) false w1 hd
            obtain ⟨hgray, _⟩ := h4 rfl
            have hw1node : w1 node = 1 := by
              rw [hgray node]
              unfold vset
              rw [if_pos (by simp)]
            have hfinal : ∀ y, w1 y = 2 → vset w1 node 2 y = 2 := by
              intro y hy
              unfold vset
              by_cases hyn : (y == node) = true
              · rw [if_pos hyn]
              · rw [if_neg hyn]
                exact hy
            have hback : ∀ y, vset w1 node 2 y = 2 → y = node ∨ w1 y = 2 := by
              intro y hy
              unfold vset at hy
              by_cases hyn : (y == node) = true
              · exact Or.inl (by simpa using hyn)
              · rw [if_neg hyn] at hy
                exact Or.inr hy
            refine ⟨⟨?_, ?_⟩, ?_⟩
            · intro b hb c hRbc
              rcases hback b hb with rfl | hw1b
              · exact hfinal c (hmem c (hRg b c hRbc))
              · exact hfinal c (hcl2.1 b hw1b c hRbc)
            · intro b hb
              rcases hback b hb with rfl | hw1b
              · intro htg
                obtain ⟨c, hRc, hrtg⟩ := Relation.TransGen.head'_iff.mp htg
                have hw1c : w1 c = 2 := hmem c (hRg b c hRc)
                have : w1 b = 2 := black_reach hcl2.1 hw1c hrtg
                rw [hw1node] at this
                cases this
              · exact hcl2.2 b hw1b
            · unfold vset
              rw [if_pos (by simp)]

theorem dfsForest_sound {g : String → List String} {R : String → String → Prop}
    (hgR : ∀ x y, y ∈ g x → R x y) (fuel : Nat) :
    ∀ (keys : List String) (v : String → Nat), (∀ x, v x ≠ 1) →
      dfsForest g fuel keys v = some true →
      ∃ z, Relation.TransGen R z z := by
  intro keys
  induction keys with
  | nil =>
    intro v _ h
    simp [dfsForest] at h
  | cons n rest ih =>
    intro v hng h
    simp only [dfsForest] at h
    by_cases h0 : (v n == 0) = true
    · rw [if_pos h0] at h
      cases hd : dfsVisit g fuel v n with
      | none => rw [hd] at h; cases h
      | some bw =>
        obtain ⟨b1, w1⟩ := bw
        rw [hd] at h
        cases b1 with
        | true =>
          exact dfsVisit_sound hgR fuel v n w1
            (fun x hx => absurd hx (hng x)) hd
        | false =>
          obtain ⟨_, _, _, h4⟩ := dfsVisit_state fuel v n false w1 hd
          obtain ⟨hgray, _⟩ := h4 rfl
          exact ih w1 (fun x hx => hng x ((hgray x).mp hx)) h
    · rw [if_neg h0] at h
      exact ih v hng h

theorem dfsForest_acyclic {g : String → List String} {R : String → String → Prop}
    (hRg : ∀ x y, R x y → y ∈ g x) (fuel : Nat) :
    ∀ (keys : List String) (v : String → Nat), ClosedInv R v →
      (∀ x, v x = 0 ∨ v x = 1 ∨ v x = 2) → (∀ x, v x ≠ 1) →
      dfsForest g fuel keys v = some false →
      ∀ n ∈ keys, ¬ Relation.TransGen R n n := by
  intro keys
  induction keys with
  | nil =>
    intro v _ _ _ _ n hn
    exact absurd hn (List.not_mem_nil n)
  | cons n rest ih =>
    intro v hcl hr hng h m hm
    simp only [dfsForest] at h
    by_cases h0 : (v n == 0) = true
    · rw [if_pos h0] at h
      cases hd : dfsVisit g fuel v n with
      | none => rw [hd] at h; cases h
      | some bw =>
        obtain ⟨b1, w1⟩ := bw
        rw [hd] at h
        cases b1 with
        | true => simp at h
        | false =>
          obtain ⟨hclw, hwn⟩ := dfsVisit_closed hRg fuel v n w1 hcl hd
          obtain ⟨_, _, hrange, h4⟩ := dfsVisit_state fuel v n false w1 hd
          obtain ⟨hgray, _⟩ := h4 rfl
          have hngw : ∀ x, w1 x ≠ 1 := fun x hx => hng x ((hgray x).mp hx)
          have hrw : ∀ x, w1 x = 0 ∨ w1 x = 1 ∨ w1 x = 2 := by
            intro x
            rcases hrange x with hx | hx | hx
            · rw [hx]; exact hr x
            · exact Or.inr (Or.inl hx)
            · exact Or.inr (Or.inr hx)
          rcases List.mem_cons.mp hm with rfl | hm2
          · exact hclw.2 m hwn
          · exact ih w1 hclw hrw hngw h m hm2
    · rw [if_neg h0] at h
      rcases List.mem_cons.mp hm with rfl | hm2
      · have hv2 : v m = 2 := by
          rcases hr m with hx | hx | hx
          · exact absurd hx (by simpa using h0)
          · exact absurd hx (hng m)
          · exact hx
        exact hcl.2 m hv2
      · exact ih v hcl hr hng h m hm2

/-- Correctness of the embedded hasCycle: it returns true exactly when the
transition list closes a directed cycle. -/
theorem hasCycle_iff_cycle (statusIds : List String) (ts : List Transition) :
    hasCycle statusIds ts = true ↔
      ∃ z, Relation.TransGen (Step ts) z z := by
  have htot := hasCycleOpt_total statusIds ts
  constructor
  · intro h
    unfold hasCycle at h
    cases hopt : hasCycleOpt statusIds ts with
    | none => rw [hopt] at h; cases h
    | some b =>
      rw [hopt] at h
      simp only [Option.getD_some] at h
      subst h
      unfold hasCycleOpt at hopt
      exact dfsForest_sound (fun x y hy => mem_neighborsOf.mp hy) _ _ _
        (fun x => by simp) hopt
  · rintro ⟨z, hz⟩
    by_contra hfalse
    unfold hasCycle at hfalse
    cases hopt : hasCycleOpt statusIds ts with
    | none =>
      rw [hopt] at htot
      cases htot
    | some b =>
      rw [hopt] at hfalse
      simp only [Option.getD_some] at hfalse
      cases b with
      | true => exact hfalse rfl
      | false =>
        unfold hasCycleOpt at hopt
        have hkeys := dfsForest_acyclic
          (fun x y hxy => mem_neighborsOf.mpr hxy) _ _ _
          ⟨fun b hb => absurd hb (by decide), fun b hb => absurd hb (by decide)⟩
          (fun x => Or.inl rfl) (fun x => by simp) hopt
        obtain ⟨c, hRc, _⟩ := Relation.TransGen.head'_iff.mp hz
        obtain ⟨t, ht, htf, _⟩ := hRc
        exact hkeys z (mem_dedupFirst.mpr (List.mem_append.mpr
          (Or.inr (List.mem_map.mpr ⟨t, ht, htf⟩)))) hz
/-- C10: hasCycle is total: on every status-id list and transition list —
including graphs with directed cycles and transitions whose endpoints do not
appear among the status ids — the depth-bounded search of hasCycleOpt
returns a result, because each recursion level marks a fresh node in
progress, so the chosen bound is never exhausted. -/
theorem hasCycle_total (statusIds : List String) (ts : List Transition) :
    (hasCycleOpt statusIds ts).isSome = true :=
  hasCycleOpt_total statusIds ts

/-- Validation result of validateTransitionAgainstWorkflow. -/
structure ValidationResult where
  valid : Bool
  errors : List String
deriving DecidableEq, Repr

/-- hasDuplicateEdge from src/utils/workflowValidation.ts: some transition
carries the same from/to pair with an id different from ignoreId; the
JavaScript strict inequality against an undefined ignoreId is always true,
modelled by comparing against the optional id. -/
def hasDuplicateEdge (transitions : List Transition)
    (fromStatusId toStatusId : String) (ignoreId : Option String) : Bool :=
  transitions.any (fun t => t.fromStatusId == fromStatusId &&
    t.toStatusId == toStatusId && !(some t.id == ignoreId))

/-- validateTransitionAgainstWorkflow from src/utils/workflowValidation.ts:
collects the duplicate-edge, cycle, start/end and approver violations over
the supplied transition list. -/
def validateTransitionAgainstWorkflow (workflow : Workflow)
    (nextTransitions : List Transition) (candidate : Transition)
    (editingId : Option String) : ValidationResult :=
  let errors :=
    (if hasDuplicateEdge nextTransitions candidate.fromStatusId
        candidate.toStatusId editingId then
      ["A transition with the same From → To already exists"] else []) ++
    (if hasCycle workflow.statuses nextTransitions then
      ["This change would create a circular dependency"] else []) ++
    (if !hasStartAndEndNodes workflow.statuses nextTransitions then
      ["Workflow must contain at least one start and one end status"] else []) ++
    (if candidate.requiresApproval && candidate.approverRoles.length == 0 &&
        candidate.approverUserIds.length == 0 then
      ["Approval required: select at least one approver role or user"] else [])
  { valid := errors.length == 0, errors := errors }

theorem cycle_message_mem (workflow : Workflow)
    (nextTransitions : List Transition) (candidate : Transition)
    (editingId : Option String) :
    ("This change would create a circular dependency" ∈
        (validateTransitionAgainstWorkflow workflow nextTransitions candidate
          editingId).errors) ↔
      hasCycle workflow.statuses nextTransitions = true := by
  unfold validateTransitionAgainstWorkflow
  cases hdup : hasDuplicateEdge nextTransitions candidate.fromStatusId
      candidate.toStatusId editingId <;>
    cases hcyc : hasCycle workflow.statuses nextTransitions <;>
      cases hse : hasStartAndEndNodes workflow.statuses nextTransitions <;>
        cases happ : (candidate.requiresApproval &&
            candidate.approverRoles.length == 0 &&
            candidate.approverUserIds.length == 0) <;>
          simp

/-- C2: over the proposed transition set (existing plus candidate) the
validator reports the cycle violation exactly when that set contains a
directed cycle; when every endpoint lies in the workflow status set, such a
cycle runs over the workflow statuses. -/
theorem validateTransition_cycle_iff (wf : Workflow)
    (existing : List Transition) (candidate : Transition)
    (editingId : Option String)
    (hclosed : ∀ t ∈ existing ++ [candidate],
      t.fromStatusId ∈ wf.statuses ∧ t.toStatusId ∈ wf.statuses)
    (hacyclic : ¬ ∃ z, Relation.TransGen (Step existing) z z) :
    ("This change would create a circular dependency" ∈
        (validateTransitionAgainstWorkflow wf (existing ++ [candidate])
          candidate editingId).errors) ↔
      ∃ z ∈ wf.statuses,
        Relation.TransGen (Step (existing ++ [candidate])) z z := by
  rw [cycle_message_mem, hasCycle_iff_cycle]
  constructor
  · rintro ⟨z, hz⟩
    obtain ⟨c, hRc, _⟩ := Relation.TransGen.head'_iff.mp hz
    obtain ⟨t, ht, htf, _⟩ := hRc
    exact ⟨z, htf ▸ (hclosed t ht).1, hz⟩
  · rintro ⟨z, _, hz⟩
    exact ⟨z, hz⟩

/-- Closed instance of the C2 theorem: statuses A, B, C with acyclic
existing transitions A → B, B → C; the candidate C → A closes the cycle and
the validator reports the circular-dependency violation. -/
theorem validateTransition_cycle_iff_witness :
    "This change would create a circular dependency" ∈
      (validateTransitionAgainstWorkflow wfABC ([tAB, tBC] ++ [tCA]) tCA
        none).errors := by
  refine (validateTransition_cycle_iff wfABC [tAB, tBC] tCA none ?_ ?_).mpr ?_
  · decide
  · rintro ⟨z, hz⟩
    have hcyc : hasCycle wfABC.statuses [tAB, tBC] = true :=
      (hasCycle_iff_cycle _ _).mpr ⟨z, hz⟩
    rw [show hasCycle wfABC.statuses [tAB, tBC] = false by decide] at hcyc
    cases hcyc
  · refine ⟨"A", by decide, ?_⟩
    have h1 : Step ([tAB, tBC] ++ [tCA]) "A" "B" := ⟨tAB, by decide, rfl, rfl⟩
    have h2 : Step ([tAB, tBC] ++ [tCA]) "B" "C" := ⟨tBC, by decide, rfl, rfl⟩
    have h3 : Step ([tAB, tBC] ++ [tCA]) "C" "A" := ⟨tCA, by decide, rfl, rfl⟩
    exact Relation.TransGen.head h1 (Relation.TransGen.head h2
      (Relation.TransGen.single h3))

/-- C3 (divergence): the create path of TransitionList validates the
proposed set (existing plus candidate) with no editingId, and the candidate
then matches itself inside hasDuplicateEdge, so even the first A → B
transition over an empty existing set is rejected as a duplicate; passing
the candidate id as editingId, as the edit path does, suppresses the
self-match. -/
theorem validateTransition_duplicate_selfReject :
    hasDuplicateEdge ([] ++ [tAB]) tAB.fromStatusId tAB.toStatusId none
        = true ∧
    "A transition with the same From → To already exists" ∈
      (validateTransitionAgainstWorkflow wfAB ([] ++ [tAB]) tAB none).errors ∧
    hasDuplicateEdge ([] ++ [tAB]) tAB.fromStatusId tAB.toStatusId
      (some tAB.id) = false := by
  refine ⟨by decide, ?_, by decide⟩
  decide
/-- Input to workflowOperations.create: every Workflow field except the id
and the two timestamps, which create fills in. -/
structure WorkflowInput where
  name : String
  description : String
  entityType : String
  statuses : List String
  transitions : List Transition
  isDefault : Bool
deriving DecidableEq, Repr

/-- The fresh record create appends: the input plus the generated id and the
two timestamps. -/
def newWorkflowRecord (w : WorkflowInput) (newId : String) (now : Nat) :
    Workflow :=
  { id := newId, name := w.name, description := w.description,
    entityType := w.entityType, statuses := w.statuses,
    transitions := w.transitions, isDefault := w.isDefault,
    createdAt := now, updatedAt := now }

/-- workflowOperations.create from src/data/dataAccess.ts: when the new
workflow is default, first clear the default flag of every stored workflow
of the same entity type, then append the new record. -/
def workflowCreate (workflows : List Workflow) (w : WorkflowInput)
    (newId : String) (now : Nat) : List Workflow :=
  let cleared :=
    if w.isDefault then
      workflows.map (fun x =>
        if x.entityType == w.entityType && x.isDefault then
          { x with isDefault := false }
        else x)
    else workflows
  cleared ++ [newWorkflowRecord w newId now]

/-- Partial Workflow update record: present fields overwrite on merge. -/
structure WorkflowUpdates where
  name : Option String
  description : Option String
  entityType : Option String
  statuses : Option (List String)
  transitions : Option (List Transition)
  isDefault : Option Bool
deriving DecidableEq, Repr

/-- The spread merge of the found workflow with the updates, stamping
updatedAt. -/
def applyUpdates (x : Workflow) (u : WorkflowUpdates) (now : Nat) : Workflow :=
  { x with
    name := u.name.getD x.name,
    description := u.description.getD x.description,
    entityType := u.entityType.getD x.entityType,
    statuses := u.statuses.getD x.statuses,
    transitions := u.transitions.getD x.transitions,
    isDefault := u.isDefault.getD x.isDefault,
    updatedAt := now }

/-- Replace the first workflow carrying the given id, as the findIndex plus
index assignment of update does. -/
def setFirstById (ws : List Workflow) (idv : String)
    (f : Workflow → Workflow) : List Workflow :=
  match ws with
  | [] => []
  | w :: rest =>
    if w.id == idv then f w :: rest else w :: setFirstById rest idv f

/-- workflowOperations.update from src/data/dataAccess.ts: no change when
the id is absent; when updates.isDefault is truthy, clear the default flag
of the other workflows of the target entity type (updates.entityType when
that is a non-empty string — the JavaScript || falls through on the empty
string — else the stored one), then merge the updates into the found
workflow. -/
def workflowUpdate (workflows : List Workflow) (idv : String)
    (u : WorkflowUpdates) (now : Nat) : List Workflow :=
  match workflows.find? (fun w => w.id == idv) with
  | none => workflows
  | some existing =>
    let targetType :=
      match u.entityType with
      | some str => if str == "" then existing.entityType else str
      | none => existing.entityType
    let cleared :=
      if u.isDefault.getD false then
        workflows.map (fun w =>
          if w.entityType == targetType && w.isDefault && w.id != idv then
            { w with isDefault := false }
          else w)
      else workflows
    setFirstById cleared idv (fun w => applyUpdates w u now)

/-- Number of stored default workflows of one entity type. -/
def defaultCount (workflows : List Workflow) (e : String) : Nat :=
  (workflows.filter (fun w => w.entityType == e && w.isDefault)).length

/-- The invariant of claim C8: at most one default workflow per entity
type. -/
def AtMostOneDefault (workflows : List Workflow) : Prop :=
  ∀ e, defaultCount workflows e ≤ 1

theorem workflowCreate_defaults (workflows : List Workflow)
    (w : WorkflowInput) (newId : String) (now : Nat)
    (hinv : AtMostOneDefault workflows) :
    AtMostOneDefault (workflowCreate workflows w newId now) := by
  intro e
  unfold workflowCreate defaultCount
  rw [List.filter_append, List.length_append]
  by_cases hdef : w.isDefault = true
  · rw [if_pos hdef]
    rw [List.filter_map]
    rw [List.length_map]
    by_cases he : (w.entityType == e) = true
    · have hcl : (workflows.filter ((fun x : Workflow =>
          x.entityType == e && x.isDefault) ∘ (fun x : Workflow =>
            if x.entityType == w.entityType && x.isDefault then
              { x with isDefault := false }
            else x))).length = 0 := by
        rw [List.length_eq_zero, List.filter_eq_nil_iff]
        intro x _
        intro hx
        simp only [Function.comp] at hx
        by_cases hcond : (x.entityType == w.entityType && x.isDefault) = true
        · rw [if_pos hcond] at hx
          simp at hx
        · rw [if_neg hcond] at hx
          apply hcond
          obtain ⟨hx1, hx2⟩ : (x.entityType == e) = true ∧ x.isDefault = true := by
            simpa using hx
          have hxe : x.entityType = e := by simpa using hx1
          have hwe : w.entityType = e := by simpa using he
          rw [Bool.and_eq_true]
          exact ⟨by simp [hxe, hwe], hx2⟩
      rw [hcl]
      have : (List.filter (fun x : Workflow => x.entityType == e && x.isDefault)
          [newWorkflowRecord w newId now]).length ≤ 1 :=
        le_trans (List.length_filter_le _ _) (by simp)
      omega
    · have hle : (workflows.filter ((fun x : Workflow =>
          x.entityType == e && x.isDefault) ∘ (fun x : Workflow =>
            if x.entityType == w.entityType && x.isDefault then
              { x with isDefault := false }
            else x))).length ≤ defaultCount workflows e := by
        unfold defaultCount
        apply List.Sublist.length_le
        apply List.monotone_filter_right
        intro x hx
        simp only [Function.comp] at hx
        by_cases hcond : (x.entityType == w.entityType && x.isDefault) = true
        · rw [if_pos hcond] at hx
          simp at hx
        · rw [if_neg hcond] at hx
          exact hx
      have hnew : (List.filter (fun x : Workflow =>
          x.entityType == e && x.isDefault)
          [newWorkflowRecord w newId now]).length = 0 := by
        rw [List.length_eq_zero, List.filter_eq_nil_iff]
        intro x hx
        rw [List.mem_singleton] at hx
        subst hx
        simp [newWorkflowRecord, he]
      rw [hnew]
      have := hinv e
      omega
  · rw [if_neg hdef]
    have hfalse : w.isDefault = false := by
      cases hw : w.isDefault
      · rfl
      · exact absurd hw hdef
    have hnew : (List.filter (fun x : Workflow =>
        x.entityType == e && x.isDefault)
        [newWorkflowRecord w newId now]).length = 0 := by
      rw [List.length_eq_zero, List.filter_eq_nil_iff]
      intro x hx
      rw [List.mem_singleton] at hx
      subst hx
      simp [newWorkflowRecord, hfalse]
    rw [hnew]
    have := hinv e
    unfold defaultCount at this
    omega
theorem setFirstById_filter (idv : String) (f : Workflow → Workflow)
    (p : Workflow → Bool) :
    ∀ (l : List Workflow) (w0 : Workflow),
      l.find? (fun w => w.id == idv) = some w0 →
      ((setFirstById l idv f).filter p).length +
          (if p w0 = true then 1 else 0) =
        (l.filter p).length + (if p (f w0) = true then 1 else 0) := by
  intro l
  induction l with
  | nil => intro w0 h; cases h
  | cons w rest ih =>
    intro w0 h
    by_cases hw : (w.id == idv) = true
    · have hfc : List.find? (fun w => w.id == idv) (w :: rest) = some w :=
        List.find?_cons_of_pos _ hw
      rw [hfc] at h
      have hw0 : w = w0 := Option.some.inj h
      subst hw0
      simp only [setFirstById, if_pos hw, List.filter_cons]
      by_cases h1 : p w = true <;> by_cases h2 : p (f w) = true <;>
        simp [h1, h2]
    · have hfc : List.find? (fun w => w.id == idv) (w :: rest) =
          List.find? (fun w => w.id == idv) rest :=
        List.find?_cons_of_neg _ hw
      rw [hfc] at h
      have hrec := ih w0 h
      simp only [setFirstById, if_neg hw, List.filter_cons]
      by_cases h1 : p w = true <;> simp [h1] <;> omega

theorem find?_unique_id (idv : String) :
    ∀ (l : List Workflow) (ex : Workflow),
      l.find? (fun w => w.id == idv) = some ex →
      l.Pairwise (fun a b => a.id ≠ b.id) →
      ∀ x ∈ l, x.id = idv → x = ex := by
  intro l
  induction l with
  | nil => intro ex h; cases h
  | cons w rest ih =>
    intro ex h hpw x hx hxid
    obtain ⟨hphead, hptail⟩ := List.pairwise_cons.mp hpw
    by_cases hw : (w.id == idv) = true
    · have hfc : List.find? (fun w => w.id == idv) (w :: rest) = some w :=
        List.find?_cons_of_pos _ hw
      rw [hfc] at h
      have hex : w = ex := Option.some.inj h
      subst hex
      rcases List.mem_cons.mp hx with rfl | hx2
      · rfl
      · have hwid : w.id = idv := by simpa using hw
        exact absurd (hwid.trans hxid.symm) (hphead x hx2)
    · have hfc : List.find? (fun w => w.id == idv) (w :: rest) =
          List.find? (fun w => w.id == idv) rest :=
        List.find?_cons_of_neg _ hw
      rw [hfc] at h
      rcases List.mem_cons.mp hx with rfl | hx2
      · exact absurd (by simpa using hxid) (by simpa using hw)
      · exact ih ex h hptail x hx2 hxid

theorem filter_length_le_single (q : Workflow → Bool) (a : Workflow) :
    ∀ l : List Workflow, (∀ x ∈ l, q x = true → x = a) →
      l.Pairwise (fun u v => u.id ≠ v.id) →
      (l.filter q).length ≤ if q a = true then 1 else 0 := by
  intro l
  induction l with
  | nil => intro _ _; simp
  | cons w rest ih =>
    intro hall hpw
    obtain ⟨hphead, hptail⟩ := List.pairwise_cons.mp hpw
    by_cases hq : q w = true
    · have hwa : w = a := hall w (List.mem_cons_self _ _) hq
      rw [List.filter_cons_of_pos hq]
      have hrest : rest.filter q = [] := by
        rw [List.filter_eq_nil_iff]
        intro y hy hqy
        have hya : y = a := hall y (List.mem_cons_of_mem _ hy) hqy
        have : w.id ≠ y.id := hphead y hy
        rw [hya, ← hwa] at this
        exact this rfl
      rw [hrest, ← hwa, if_pos hq]
      simp
    · rw [List.filter_cons_of_neg (by simpa using hq)]
      exact ih (fun x hx hqx => hall x (List.mem_cons_of_mem _ hx) hqx) hptail
theorem workflowUpdate_some (workflows : List Workflow) (idv : String)
    (u : WorkflowUpdates) (now : Nat) (existing : Workflow)
    (hfind : workflows.find? (fun w => w.id == idv) = some existing)
    (hET : u.entityType = none) :
    workflowUpdate workflows idv u now =
      setFirstById
        (if u.isDefault.getD false then
          workflows.map (fun w =>
            if w.entityType == existing.entityType && w.isDefault &&
                w.id != idv then
              { w with isDefault := false }
            else w)
        else workflows)
        idv (fun w => applyUpdates w u now) := by
  unfold workflowUpdate
  rw [hfind, hET]

theorem workflowUpdate_defaults (workflows : List Workflow) (idv : String)
    (u : WorkflowUpdates) (now : Nat)
    (hinv : AtMostOneDefault workflows)
    (hids : workflows.Pairwise (fun a b => a.id ≠ b.id))
    (hET : u.entityType = none) :
    AtMostOneDefault (workflowUpdate workflows idv u now) := by
  intro e
  cases hfind : workflows.find? (fun w => w.id == idv) with
  | none =>
    unfold workflowUpdate
    rw [hfind]
    exact hinv e
  | some existing =>
    rw [workflowUpdate_some workflows idv u now existing hfind hET]
    have hmergeE : ∀ x : Workflow, (applyUpdates x u now).entityType =
        x.entityType := by
      intro x
      simp [applyUpdates, hET]
    have hmergeD : ∀ x : Workflow, (applyUpdates x u now).isDefault =
        u.isDefault.getD x.isDefault := by
      intro x
      simp [applyUpdates]
    by_cases hdef : u.isDefault.getD false = true
    · rw [if_pos hdef]
      have hu : u.isDefault = some true := by
        cases hu0 : u.isDefault with
        | none => rw [hu0] at hdef; cases hdef
        | some b =>
          cases b with
          | false => rw [hu0] at hdef; cases hdef
          | true => rfl
      have hidpres : ∀ w : Workflow,
          ((fun w : Workflow =>
            if w.entityType == existing.entityType && w.isDefault &&
                w.id != idv then
              { w with isDefault := false }
            else w) w).id = w.id := by
        intro w
        by_cases hc : (w.entityType == existing.entityType && w.isDefault &&
            w.id != idv) = true
        · simp only [if_pos hc]
        · simp only [if_neg hc]
      have hfind2 : (workflows.map (fun w : Workflow =>
          if w.entityType == existing.entityType && w.isDefault &&
              w.id != idv then
            { w with isDefault := false }
          else w)).find? (fun w => w.id == idv) =
          some ((fun w : Workflow =>
            if w.entityType == existing.entityType && w.isDefault &&
                w.id != idv then
              { w with isDefault := false }
            else w) existing) := by
        rw [List.find?_map]
        have hcmp : ((fun w : Workflow => w.id == idv) ∘ (fun w : Workflow =>
            if w.entityType == existing.entityType && w.isDefault &&
                w.id != idv then
              { w with isDefault := false }
            else w)) = fun w : Workflow => w.id == idv := by
          funext w
          simp only [Function.comp]
          rw [hidpres w]
        rw [hcmp, hfind]
        rfl
      have heq := setFirstById_filter idv (fun w => applyUpdates w u now)
        (fun w : Workflow => w.entityType == e && w.isDefault)
        (workflows.map (fun w : Workflow =>
          if w.entityType == existing.entityType && w.isDefault &&
              w.id != idv then
            { w with isDefault := false }
          else w))
        ((fun w : Workflow =>
          if w.entityType == existing.entityType && w.isDefault &&
              w.id != idv then
            { w with isDefault := false }
          else w) existing) hfind2
      have hcE : ∀ w : Workflow, ((fun w : Workflow =>
          if w.entityType == existing.entityType && w.isDefault &&
              w.id != idv then
            { w with isDefault := false }
          else w) w).entityType = w.entityType := by
        intro w
        by_cases hc : (w.entityType == existing.entityType && w.isDefault &&
            w.id != idv) = true
        · simp only [if_pos hc]
        · simp only [if_neg hc]
      have hpm : ((fun w : Workflow => w.entityType == e && w.isDefault)
          (applyUpdates ((fun w : Workflow =>
            if w.entityType == existing.entityType && w.isDefault &&
                w.id != idv then
              { w with isDefault := false }
            else w) existing) u now)) =
          (existing.entityType == e) := by
        rw [show ∀ y : Workflow, ((fun w : Workflow =>
            w.entityType == e && w.isDefault) y) =
            (y.entityType == e && y.isDefault) from fun y => rfl]
        rw [hmergeE, hmergeD, hcE, hu]
        simp
      by_cases hee : (existing.entityType == e) = true
      · have hall : ∀ x ∈ workflows.map (fun w : Workflow =>
            if w.entityType == existing.entityType && w.isDefault &&
                w.id != idv then
              { w with isDefault := false }
            else w),
            ((fun w : Workflow => w.entityType == e && w.isDefault) x) = true →
            x = ((fun w : Workflow =>
              if w.entityType == existing.entityType && w.isDefault &&
                  w.id != idv then
                { w with isDefault := false }
              else w) existing) := by
          intro y hy hpy
          obtain ⟨x, hxmem, hxeq⟩ := List.mem_map.mp hy
          subst hxeq
          by_cases hc : (x.entityType == existing.entityType && x.isDefault &&
              x.id != idv) = true
          · rw [if_pos hc] at hpy
            simp at hpy
          · rw [if_neg hc] at hpy
            obtain ⟨hpy1, hpy2⟩ : (x.entityType == e) = true ∧
                x.isDefault = true := by simpa using hpy
            have hxid : x.id = idv := by
              by_contra hxid
              apply hc
              have h1 : (x.entityType == existing.entityType) = true := by
                have hxe : x.entityType = e := by simpa using hpy1
                have hye : existing.entityType = e := by simpa using hee
                simp [hxe, hye]
              have h3 : (x.id != idv) = true := by simpa using hxid
              rw [h1, hpy2, h3]
              rfl
            have hxex : x = existing :=
              find?_unique_id idv workflows existing hfind hids x hxmem hxid
            rw [hxex]
        have hpair : (workflows.map (fun w : Workflow =>
            if w.entityType == existing.entityType && w.isDefault &&
                w.id != idv then
              { w with isDefault := false }
            else w)).Pairwise (fun a b => a.id ≠ b.id) := by
          rw [List.pairwise_map]
          apply List.Pairwise.imp ?_ hids
          intro a b hab
          rw [hidpres a, hidpres b]
          exact hab
        have hcount := filter_length_le_single
          (fun w : Workflow => w.entityType == e && w.isDefault)
          ((fun w : Workflow =>
            if w.entityType == existing.entityType && w.isDefault &&
                w.id != idv then
              { w with isDefault := false }
            else w) existing)
          (workflows.map (fun w : Workflow =>
            if w.entityType == existing.entityType && w.isDefault &&
                w.id != idv then
              { w with isDefault := false }
            else w)) hall hpair
        rw [hpm, if_pos hee] at heq
        unfold defaultCount
        by_cases hpc : ((fun w : Workflow => w.entityType == e && w.isDefault)
            ((fun w : Workflow =>
              if w.entityType == existing.entityType && w.isDefault &&
                  w.id != idv then
                { w with isDefault := false }
              else w) existing)) = true
        · rw [if_pos hpc] at heq hcount
          omega
        · rw [if_neg hpc] at heq hcount
          omega
      · rw [hpm, if_neg hee] at heq
        have hle : ((workflows.map (fun w : Workflow =>
            if w.entityType == existing.entityType && w.isDefault &&
                w.id != idv then
              { w with isDefault := false }
            else w)).filter
              (fun w : Workflow => w.entityType == e && w.isDefault)).length ≤
            defaultCount workflows e := by
          unfold defaultCount
          rw [List.filter_map, List.length_map]
          apply List.Sublist.length_le
          apply List.monotone_filter_right
          intro x hx
          simp only [Function.comp] at hx
          by_cases hc : (x.entityType == existing.entityType && x.isDefault &&
              x.id != idv) = true
          · rw [if_pos hc] at hx
            simp at hx
          · rw [if_neg hc] at hx
            exact hx
        have hinve := hinv e
        unfold defaultCount
        by_cases hpc : ((fun w : Workflow => w.entityType == e && w.isDefault)
            ((fun w : Workflow =>
              if w.entityType == existing.entityType && w.isDefault &&
                  w.id != idv then
                { w with isDefault := false }
              else w) existing)) = true
        · rw [if_pos hpc] at heq
          omega
        · rw [if_neg hpc] at heq
          omega
    · rw [if_neg hdef]
      have heq := setFirstById_filter idv (fun w => applyUpdates w u now)
        (fun w : Workflow => w.entityType == e && w.isDefault)
        workflows existing hfind
      have hinve := hinv e
      unfold defaultCount at hinve ⊢
      cases hu : u.isDefault with
      | none =>
        have hpm : ((fun w : Workflow => w.entityType == e && w.isDefault)
            (applyUpdates existing u now)) =
            ((fun w : Workflow => w.entityType == e && w.isDefault)
              existing) := by
          rw [show ∀ y : Workflow, ((fun w : Workflow =>
              w.entityType == e && w.isDefault) y) =
              (y.entityType == e && y.isDefault) from fun y => rfl]
          rw [hmergeE, hmergeD, hu]
          rfl
        rw [hpm] at heq
        by_cases hpc : ((fun w : Workflow => w.entityType == e && w.isDefault)
            existing) = true
        · rw [if_pos hpc] at heq
          omega
        · rw [if_neg hpc] at heq
          omega
      | some b =>
        cases b with
        | true =>
          rw [hu] at hdef
          exact absurd rfl hdef
        | false =>
          have hpm : ((fun w : Workflow => w.entityType == e && w.isDefault)
              (applyUpdates existing u now)) = false := by
            rw [show ∀ y : Workflow, ((fun w : Workflow =>
                w.entityType == e && w.isDefault) y) =
                (y.entityType == e && y.isDefault) from fun y => rfl]
            rw [hmergeE, hmergeD, hu]
            simp
          rw [hpm] at heq
          simp only [Bool.false_eq_true, if_false] at heq
          by_cases hpc : ((fun w : Workflow =>
              w.entityType == e && w.isDefault) existing) = true
          · rw [if_pos hpc] at heq
            omega
          · rw [if_neg hpc] at heq
            omega
/-- Stored default workflow for entity type project. -/
def wDefProject : Workflow :=
  { id := "w1", name := "P", description := "d", entityType := "project",
    statuses := [], transitions := [], isDefault := true,
    createdAt := 0, updatedAt := 0 }

/-- Stored default workflow for entity type design. -/
def wDefDesign : Workflow :=
  { id := "w2", name := "D", description := "d", entityType := "design",
    statuses := [], transitions := [], isDefault := true,
    createdAt := 0, updatedAt := 0 }

/-- Update record that only changes entityType to design. -/
def updSetDesign : WorkflowUpdates :=
  { name := none, description := none, entityType := some "design",
    statuses := none, transitions := none, isDefault := none }

/-- Update record that only sets the default flag. -/
def updFlagOnly : WorkflowUpdates :=
  { name := none, description := none, entityType := none,
    statuses := none, transitions := none, isDefault := some true }

/-- Create input for a non-default design workflow. -/
def inputDesign : WorkflowInput :=
  { name := "D2", description := "d", entityType := "design",
    statuses := [], transitions := [], isDefault := true }

theorem defaults_fixture_inv : AtMostOneDefault [wDefProject, wDefDesign] := by
  intro e
  by_cases h1 : e = "project"
  · subst h1
    decide
  · by_cases h2 : e = "design"
    · subst h2
      decide
    · have hp : (("project" : String) == e) = false := by
        rw [beq_eq_false_iff_ne]
        exact fun h => h1 h.symm
      have hd : (("design" : String) == e) = false := by
        rw [beq_eq_false_iff_ne]
        exact fun h => h2 h.symm
      unfold defaultCount
      simp [List.filter, wDefProject, wDefDesign, hp, hd]

/-- C8 counterexample: updating the stored project default to entity type
design, without touching isDefault, leaves two stored defaults for design:
the update clearing loop only runs when updates.isDefault is truthy, so an
entity-type move of a default workflow breaks the invariant. -/
theorem workflowUpdate_breaks_defaults :
    AtMostOneDefault [wDefProject, wDefDesign] ∧
    ¬ AtMostOneDefault
        (workflowUpdate [wDefProject, wDefDesign] "w1" updSetDesign 5) := by
  refine ⟨defaults_fixture_inv, ?_⟩
  intro hinv
  have h2 := hinv "design"
  rw [show defaultCount
      (workflowUpdate [wDefProject, wDefDesign] "w1" updSetDesign 5)
      "design" = 2 from by decide] at h2
  omega

/-- C8 (amended): create preserves the at-most-one-default-per-entity-type
invariant for all arguments; update preserves it when the stored ids are
pairwise distinct and the update record does not change entityType. -/
theorem workflowOperations_defaults :
    (∀ (workflows : List Workflow) (w : WorkflowInput) (newId : String)
        (now : Nat), AtMostOneDefault workflows →
      AtMostOneDefault (workflowCreate workflows w newId now)) ∧
    (∀ (workflows : List Workflow) (idv : String) (u : WorkflowUpdates)
        (now : Nat), AtMostOneDefault workflows →
      workflows.Pairwise (fun a b => a.id ≠ b.id) → u.entityType = none →
      AtMostOneDefault (workflowUpdate workflows idv u now)) :=
  ⟨fun workflows w newId now hinv =>
      workflowCreate_defaults workflows w newId now hinv,
    fun workflows idv u now hinv hids hET =>
      workflowUpdate_defaults workflows idv u now hinv hids hET⟩

/-- Closed instance of the amended C8 theorem: creating a new default design
workflow while one exists, and switching the default flag of the project
workflow on, both keep at most one default per entity type. -/
theorem workflowOperations_defaults_witness :
    AtMostOneDefault (workflowCreate [wDefProject, wDefDesign]
      inputDesign "w3" 7) ∧
    AtMostOneDefault (workflowUpdate [wDefProject, wDefDesign] "w2"
      updFlagOnly 5) :=
  ⟨workflowOperations_defaults.1 [wDefProject, wDefDesign] inputDesign "w3" 7
      defaults_fixture_inv,
    workflowOperations_defaults.2 [wDefProject, wDefDesign] "w2" updFlagOnly 5
      defaults_fixture_inv
      (by simp [List.pairwise_cons, wDefProject, wDefDesign]) rfl⟩

end PV
